import Mathlib

/-!
Shallow embedding of `src/request.rs` from `wiremock-rs`: the `Request`
snapshot type, its construction from a raw hyper request (`from_hyper`),
the `Display` rendering, and the `body_json` decoder.

Machine bytes are modelled as `Nat` (each in `0..255`), Rust `String`s as
Lean `String`s, and panics as an explicit `Outcome.panicked` constructor.
External crates (`url`, `http`, `hyper`, `serde_json`, and the UTF-8
routines of Rust's standard library) have no source in this repository;
they are modelled by executable Lean functions faithful to their
documented behaviour at the inputs this development uses.
-/

namespace Wiremock

/-- ASCII lowercasing of a single character, as Rust's byte-wise
`to_ascii_lowercase` used by `http::HeaderName` normalization. -/
def lowerChar (c : Char) : Char :=
  if 65 ≤ c.toNat ∧ c.toNat ≤ 90 then Char.ofNat (c.toNat + 32) else c

/-- ASCII lowercasing of a string, character by character. -/
def lowerName (s : String) : String := ⟨s.data.map lowerChar⟩

/-- Header names. Modelled from the spec: `http::HeaderName` (external
crate) stores the name normalized to lowercase; equality on header names
is equality of the normalized form. -/
structure HeaderName where
  raw : String
deriving DecidableEq, Repr

/-- Constructing a `HeaderName` lowercases the name, as the `http` crate
does on every constructor path. -/
def HeaderName.ofString (s : String) : HeaderName := ⟨lowerName s⟩

/-- Header values are opaque byte sequences (`http::HeaderValue`). -/
abbrev HeaderValue := List Nat

/-- The header map of a snapshot. The Rust code uses
`HashMap<HeaderName, Vec<HeaderValue>>`; it is modelled as an association
list ordered by first insertion (the `HashMap` iteration order is
unspecified, and no claim depends on the order of distinct keys). -/
abbrev HeaderMap := List (HeaderName × List HeaderValue)

/-- Insertion into the header map, modelling
`headers.entry(name).and_modify(push value).or_insert(vec![value])`. -/
def insertHeader : HeaderMap → HeaderName → HeaderValue → HeaderMap
  | [], n, v => [(n, [v])]
  | (k, vs) :: rest, n, v =>
    if k = n then (k, vs ++ [v]) :: rest
    else (k, vs) :: insertHeader rest n v

/-- Lookup in the header map by (normalized) header name. -/
def headerLookup : HeaderMap → HeaderName → Option (List HeaderValue)
  | [], _ => none
  | (k, vs) :: rest, n => if k = n then some vs else headerLookup rest n

/-- Lookup by a raw (possibly mixed-case) name string: the key is built
through `HeaderName.ofString`, exactly as every `http::HeaderName`
constructor normalizes. -/
def lookupByName (m : HeaderMap) (s : String) : Option (List HeaderValue) :=
  headerLookup m (HeaderName.ofString s)

/-- The header-aggregation loop of `Request::from_hyper`:
`for (name, value) in parts.headers.iter()` over the arrival-ordered
pairs, inserting each into the map. -/
def aggregateHeaders (pairs : List (String × HeaderValue)) : HeaderMap :=
  pairs.foldl (fun m p => insertHeader m (HeaderName.ofString p.1) p.2) []

/-- Decides whether a byte is a UTF-8 continuation byte (`0x80..0xBF`). -/
def isCont (b : Nat) : Bool := 128 ≤ b && b < 192

/-- Strict UTF-8 decoding with a step budget; the budget only bounds the
number of decoded characters (each step consumes at least one byte), so
running it with budget ≥ length is exact. -/
def utf8DecodeAux : Nat → List Nat → Option (List Char)
  | _, [] => some []
  | 0, _ :: _ => none
  | fuel + 1, b1 :: rest =>
    if b1 < 128 then
      (utf8DecodeAux fuel rest).map (fun cs => Char.ofNat b1 :: cs)
    else if b1 < 194 then none
    else if b1 < 224 then
      match rest with
      | b2 :: rest2 =>
        if isCont b2 then
          (utf8DecodeAux fuel rest2).map
            (fun cs => Char.ofNat ((b1 - 192) * 64 + (b2 - 128)) :: cs)
        else none
      | [] => none
    else if b1 < 240 then
      match rest with
      | b2 :: b3 :: rest3 =>
        if isCont b2 && isCont b3 then
          let cp := (b1 - 224) * 4096 + (b2 - 128) * 64 + (b3 - 128)
          if cp < 2048 || (55296 ≤ cp && cp < 57344) then none
          else (utf8DecodeAux fuel rest3).map (fun cs => Char.ofNat cp :: cs)
        else none
      | _ => none
    else if b1 < 245 then
      match rest with
      | b2 :: b3 :: b4 :: rest4 =>
        if isCont b2 && isCont b3 && isCont b4 then
          let cp := (b1 - 240) * 262144 + (b2 - 128) * 4096
                      + (b3 - 128) * 64 + (b4 - 128)
          if cp < 65536 || 1114111 < cp then none
          else (utf8DecodeAux fuel rest4).map (fun cs => Char.ofNat cp :: cs)
        else none
      | _ => none
    else none

/-- Strict UTF-8 decoding of a byte sequence, modelling Rust's
`String::from_utf8` (standard library, external to this repository):
`none` exactly when the bytes are not valid UTF-8. -/
def utf8Decode (bs : List Nat) : Option (List Char) :=
  utf8DecodeAux bs.length bs

/-- Strict UTF-8 decoding to a `String`. -/
def utf8DecodeStr (bs : List Nat) : Option String :=
  (utf8Decode bs).map (fun cs => ⟨cs⟩)

/-- The Unicode replacement character `U+FFFD`. -/
def replacementChar : Char := Char.ofNat 65533

/-- Lossy UTF-8 decoding with a step budget, as `utf8DecodeAux`. -/
def utf8LossyAux : Nat → List Nat → List Char
  | _, [] => []
  | 0, _ :: _ => []
  | fuel + 1, b1 :: rest =>
    if b1 < 128 then Char.ofNat b1 :: utf8LossyAux fuel rest
    else if b1 < 194 then replacementChar :: utf8LossyAux fuel rest
    else if b1 < 224 then
      match rest with
      | b2 :: rest2 =>
        if isCont b2 then
          Char.ofNat ((b1 - 192) * 64 + (b2 - 128)) :: utf8LossyAux fuel rest2
        else replacementChar :: utf8LossyAux fuel rest
      | [] => [replacementChar]
    else if b1 < 240 then
      match rest with
      | b2 :: b3 :: rest3 =>
        if isCont b2 && isCont b3 then
          let cp := (b1 - 224) * 4096 + (b2 - 128) * 64 + (b3 - 128)
          if cp < 2048 || (55296 ≤ cp && cp < 57344) then
            replacementChar :: utf8LossyAux fuel rest
          else Char.ofNat cp :: utf8LossyAux fuel rest3
        else replacementChar :: utf8LossyAux fuel rest
      | _ => replacementChar :: utf8LossyAux fuel rest
    else if b1 < 245 then
      match rest with
      | b2 :: b3 :: b4 :: rest4 =>
        if isCont b2 && isCont b3 && isCont b4 then
          let cp := (b1 - 240) * 262144 + (b2 - 128) * 4096
                      + (b3 - 128) * 64 + (b4 - 128)
          if cp < 65536 || 1114111 < cp then
            replacementChar :: utf8LossyAux fuel rest
          else Char.ofNat cp :: utf8LossyAux fuel rest4
        else replacementChar :: utf8LossyAux fuel rest
      | _ => replacementChar :: utf8LossyAux fuel rest
    else replacementChar :: utf8LossyAux fuel rest

/-- Lossy UTF-8 decoding, modelling Rust's `String::from_utf8_lossy`
(standard library, external): total, substituting `U+FFFD` for
ill-formed subsequences. -/
def utf8Lossy (bs : List Nat) : List Char := utf8LossyAux bs.length bs

/-- Lossy UTF-8 decoding to a `String`. -/
def utf8LossyStr (bs : List Nat) : String := ⟨utf8Lossy bs⟩

/-- An absolute URL: scheme, authority (host and optional port), path and
optional query. Modelled from the spec: `url::Url` is an external crate;
only absolute URLs are representable (§3: "always absolute, never
origin-form"). -/
structure Url where
  scheme : String
  authority : String
  path : String
  query : Option String
deriving DecidableEq, Repr

/-- Decides ASCII letters. -/
def isAlphaChar (c : Char) : Bool :=
  (65 ≤ c.toNat && c.toNat ≤ 90) || (97 ≤ c.toNat && c.toNat ≤ 122)

/-- Decides ASCII digits. -/
def isDigitChar (c : Char) : Bool := 48 ≤ c.toNat && c.toNat ≤ 57

/-- Characters allowed in a URL scheme after the first (RFC 3986). -/
def isSchemeChar (c : Char) : Bool :=
  isAlphaChar c || isDigitChar c || c = '+' || c = '-' || c = '.'

/-- Splits a character list at the first character satisfying `p`; the
delimiter, when present, stays at the head of the second component. -/
def takeUntil (p : Char → Bool) : List Char → List Char × List Char
  | [] => ([], [])
  | c :: rest =>
    if p c then ([], c :: rest)
    else
      let q := takeUntil p rest
      (c :: q.1, q.2)

/-- URL parsing on characters: requires `scheme://authority[/path][?query]`
with a scheme starting in a letter and a non-empty authority free of
whitespace; an empty path is normalized to `/` as the `url` crate does for
special schemes. Modelled from the spec: the `url` crate is external; its
parser accepts an absolute URL and rejects scheme-less input such as an
authority-form CONNECT target. -/
def parseUrlChars (cs : List Char) : Option Url :=
  let sp := takeUntil (fun c => c = ':') cs
  match sp.2 with
  | ':' :: '/' :: '/' :: rest =>
    match sp.1 with
    | [] => none
    | c0 :: _ =>
      if isAlphaChar c0 && sp.1.all isSchemeChar then
        let ap := takeUntil (fun c => c = '/' || c = '?') rest
        if ap.1 = [] || ap.1.any (fun c => c = ' ' || c = '#' || c = '@') then
          none
        else
          match ap.2 with
          | [] => some ⟨⟨sp.1⟩, ⟨ap.1⟩, "/", none⟩
          | '?' :: q => some ⟨⟨sp.1⟩, ⟨ap.1⟩, "/", some ⟨q⟩⟩
          | rest2 =>
            let pp := takeUntil (fun c => c = '?') rest2
            match pp.2 with
            | '?' :: q => some ⟨⟨sp.1⟩, ⟨ap.1⟩, ⟨pp.1⟩, some ⟨q⟩⟩
            | _ => some ⟨⟨sp.1⟩, ⟨ap.1⟩, ⟨pp.1⟩, none⟩
      else none
  | _ => none

/-- URL parsing on strings (`url::Url::parse` model). -/
def parseUrl (s : String) : Option Url := parseUrlChars s.data

/-- Serialization of a URL, as displayed by the `url` crate. -/
def Url.toString (u : Url) : String :=
  u.scheme ++ "://" ++ u.authority ++ u.path
    ++ (match u.query with | some q => "?" ++ q | none => "")

/-- A request target as carried by `http::Uri` (external crate): an
optional scheme, an optional authority, and the path-and-query part.
Origin-form targets have neither scheme nor authority; authority-form
(CONNECT) targets have an authority but no scheme. -/
structure Uri where
  scheme : Option String
  authority : Option String
  pathAndQuery : String
deriving DecidableEq, Repr

/-- Serialization of a target (`http::Uri`'s `Display`, used by
`parts.uri.to_string()` and by `format!` in `from_hyper`). -/
def Uri.toString (u : Uri) : String :=
  match u.scheme, u.authority with
  | some s, some a => s ++ "://" ++ a ++ u.pathAndQuery
  | none, some a => a ++ u.pathAndQuery
  | _, none => u.pathAndQuery

/-- An I/O failure raised by the transport while the body streams. -/
structure IoError where
  msg : String
deriving DecidableEq, Repr

/-- State of a raw body source. Modelled from the spec (§9):
`hyper::Body` is external; the spec directs modelling it as an explicit
two-state resource, `available` (drain permitted) or `consumed` (drain
forbidden). -/
inductive BodyState where
  | available : BodyState
  | consumed : BodyState
deriving DecidableEq, Repr

/-- A raw body source: its state, and what a full drain would yield —
either the complete byte sequence or a transport failure. -/
structure BodySource where
  state : BodyState
  content : Except IoError (List Nat)

/-- Errors of a drain attempt: the source was already consumed, or the
transport failed mid-stream. -/
inductive DrainError where
  | alreadyConsumed : DrainError
  | ioFailure : IoError → DrainError

/-- Draining a body source (`hyper::body::to_bytes` model, per §9): a
consumed source fails with a state error and never yields bytes; an
available source yields its content (or its I/O failure) and becomes
consumed. -/
def drain (src : BodySource) : Except DrainError (List Nat) × BodySource :=
  match src.state with
  | .consumed => (.error .alreadyConsumed, src)
  | .available =>
    match src.content with
    | .ok bs => (.ok bs, { src with state := .consumed })
    | .error e => (.error (.ioFailure e), { src with state := .consumed })

/-- The snapshot type `Request` of `src/request.rs`: absolute URL, method
token, aggregated headers, fully buffered body bytes. -/
structure Request where
  url : Url
  method : String
  headers : HeaderMap
  body : List Nat
deriving DecidableEq, Repr

/-- Result of running Rust code that may panic. -/
inductive Outcome (α : Type) where
  | ok : α → Outcome α
  | panicked : String → Outcome α
deriving DecidableEq, Repr

/-- The raw inbound request handed to `Request::from_hyper`: method,
target, header pairs in arrival order (as `parts.headers.iter()` yields
them), and the single-consumption body source. -/
structure RawRequest where
  method : String
  uri : Uri
  headerPairs : List (String × HeaderValue)
  body : BodySource

/-- The panic message of `Result::unwrap` on the failed URL parse. -/
def urlPanicMsg : String := "called Result::unwrap() on an Err value"

/-- The panic message of the `expect` on a failed body read. -/
def bodyPanicMsg : String := "Failed to read request body."

/-- The URL string `from_hyper` builds before parsing:
`parts.uri.to_string()` when the target has an authority, otherwise
`format!("http://localhost{}", parts.uri)`. -/
def resolveUrlString (u : Uri) : String :=
  match u.authority with
  | some _ => u.toString
  | none => "http://localhost" ++ u.toString

/-- The capture operation `Request::from_hyper`: builds the URL string and
parses it (`.parse().unwrap()` — a parse failure panics), aggregates the
header pairs in arrival order, then drains the body
(`hyper::body::to_bytes(body).await.expect(..)` — a read failure panics).
Returns the outcome together with the final state of the body source. -/
def from_hyper (r : RawRequest) : Outcome Request × BodySource :=
  match parseUrl (resolveUrlString r.uri) with
  | none => (Outcome.panicked urlPanicMsg, r.body)
  | some url =>
    let headers := aggregateHeaders r.headerPairs
    let d := drain r.body
    match d.1 with
    | .error _ => (Outcome.panicked bodyPanicMsg, d.2)
    | .ok bodyBytes =>
      (Outcome.ok
        { url := url, method := r.method, headers := headers,
          body := bodyBytes }, d.2)

/-- Joins strings with `","`, as `values.join(",")` in the `Display`
implementation. -/
def joinComma : List String → String
  | [] => ""
  | [s] => s
  | s :: rest => s ++ "," ++ joinComma rest

/-- Short-circuiting map into `Option`, modelling an iterator whose
closure panics on the first failing element. -/
def mapOption (f : α → Option β) : List α → Option (List β)
  | [] => some []
  | a :: l =>
    match f a with
    | none => none
    | some b =>
      match mapOption f l with
      | none => none
      | some bs => some (b :: bs)

/-- The header lines of the `Display` implementation, which decodes each
value with `String::from_utf8(..).unwrap()` — strict decoding whose
failure panics (`none` here). -/
def headerLinesStrict : HeaderMap → Option String
  | [] => some ""
  | (n, vs) :: rest =>
    match mapOption utf8DecodeStr vs with
    | none => none
    | some ss =>
      match headerLinesStrict rest with
      | none => none
      | some restStr => some (n.raw ++ ": " ++ joinComma ss ++ "\n" ++ restStr)

/-- The panic message of the `unwrap` on a non-UTF-8 header value in
`Display`. -/
def hdrPanicMsg : String := "called Result::unwrap() on an Err value"

/-- The diagnostic renderer, `impl fmt::Display for Request`: the
`<METHOD> <URL>` line, one line per header key with values joined by `,`
(each value strictly UTF-8 decoded, panicking when invalid), and a final
body line from `String::from_utf8_lossy(&self.body)`. -/
def render (req : Request) : Outcome String :=
  match headerLinesStrict req.headers with
  | none => Outcome.panicked hdrPanicMsg
  | some hl =>
    Outcome.ok
      (req.method ++ " " ++ req.url.toString ++ "\n" ++ hl
        ++ utf8LossyStr req.body ++ "\n")

/-- Concatenation of a list of strings. -/
def concatStrings : List String → String
  | [] => ""
  | s :: rest => s ++ concatStrings rest

/-- The header line the renderer prints for one key: name, `": "`, the
values joined with commas. Stated with a defaulted strict decode so that
it coincides with the renderer whenever every value is valid UTF-8. -/
def headerLine (n : HeaderName) (vs : List HeaderValue) : String :=
  n.raw ++ ": " ++ joinComma (vs.map (fun v => (utf8DecodeStr v).getD "")) ++ "\n"

/-- The full text the renderer produces when it does not panic. -/
def renderedText (req : Request) : String :=
  req.method ++ " " ++ req.url.toString ++ "\n"
    ++ concatStrings (req.headers.map (fun p => headerLine p.1 p.2))
    ++ utf8LossyStr req.body ++ "\n"

/-- The error type of the structured body decoder (`serde_json::Error`,
external crate, collapsed to one constructor). -/
inductive DecodeError where
  | invalid : DecodeError
deriving DecidableEq, Repr

/-- The double-quote character. -/
def quoteChar : Char := Char.ofNat 34

/-- The opening-brace character. -/
def lbraceChar : Char := Char.ofNat 123

/-- The closing-brace character. -/
def rbraceChar : Char := Char.ofNat 125

/-- The backslash character. -/
def backslashChar : Char := Char.ofNat 92

/-- Skips JSON whitespace. -/
def skipWs : List Char → List Char
  | [] => []
  | c :: rest =>
    if c = ' ' || c = Char.ofNat 9 || c = Char.ofNat 10 || c = Char.ofNat 13
    then skipWs rest else c :: rest

/-- Reads the characters of a JSON string literal up to its closing
quote (the opening quote already consumed); escape sequences are outside
the model and rejected. -/
def takeStringChars : List Char → Option (List Char × List Char)
  | [] => none
  | c :: rest =>
    if c = quoteChar then some ([], rest)
    else if c = backslashChar then none
    else (takeStringChars rest).map (fun p => (c :: p.1, p.2))

/-- Takes a maximal run of ASCII digits. -/
def takeDigits : List Char → List Char × List Char
  | [] => ([], [])
  | c :: rest =>
    if isDigitChar c then
      let q := takeDigits rest
      (c :: q.1, q.2)
    else ([], c :: rest)

/-- Numeric value of a digit run. -/
def digitsVal (ds : List Char) : Nat :=
  ds.foldl (fun acc c => acc * 10 + (c.toNat - 48)) 0

/-- Parses a JSON integer token (optional minus sign, digits). -/
def parseIntTok (cs : List Char) : Option (Int × List Char) :=
  match cs with
  | '-' :: rest =>
    let q := takeDigits rest
    match q.1 with
    | [] => none
    | _ => some (-(Int.ofNat (digitsVal q.1)), q.2)
  | _ =>
    let q := takeDigits cs
    match q.1 with
    | [] => none
    | _ => some (Int.ofNat (digitsVal q.1), q.2)

/-- Parses the members of a JSON object of string keys and integer
values, starting at the first key and consuming through the closing
brace. The fuel only bounds the member count. -/
def parseMembers : Nat → List Char → Option (List (String × Int) × List Char)
  | 0, _ => none
  | fuel + 1, cs =>
    match skipWs cs with
    | [] => none
    | q :: rest =>
      if q = quoteChar then
        match takeStringChars rest with
        | none => none
        | some (key, rest2) =>
          match skipWs rest2 with
          | [] => none
          | c :: rest3 =>
            if c = ':' then
              match parseIntTok (skipWs rest3) with
              | none => none
              | some (n, rest4) =>
                match skipWs rest4 with
                | [] => none
                | c2 :: rest5 =>
                  if c2 = ',' then
                    (parseMembers fuel rest5).map
                      (fun p => ((⟨key⟩, n) :: p.1, p.2))
                  else if c2 = rbraceChar then some ([(⟨key⟩, n)], rest5)
                  else none
            else none
      else none

/-- Parses a complete JSON object of string keys and integer values,
requiring only trailing whitespace after it. Modelled from the spec:
`serde_json` (external crate) deserializing into a map of string to
integer. -/
def parseIntMapChars (cs : List Char) : Option (List (String × Int)) :=
  match skipWs cs with
  | [] => none
  | c :: rest =>
    if c = lbraceChar then
      match skipWs rest with
      | [] => none
      | c2 :: rest2 =>
        if c2 = rbraceChar then
          match skipWs rest2 with
          | [] => some []
          | _ => none
        else
          match parseMembers (cs.length + 1) (c2 :: rest2) with
          | none => none
          | some (m, rest3) =>
            match skipWs rest3 with
            | [] => some m
            | _ => none
    else none

/-- The structured body decoder `Request::body_json`, instantiated at the
representative target shape of a mapping from strings to integers:
`serde_json::from_slice(&self.body)`. Pure — the snapshot is taken by
shared reference and never changed. -/
def body_json (r : Request) : Except DecodeError (List (String × Int)) :=
  match utf8Decode r.body with
  | none => .error .invalid
  | some cs =>
    match parseIntMapChars cs with
    | none => .error .invalid
    | some m => .ok m

/-- The values carried, in arrival order, by the input header pairs whose
normalized name equals `key`. -/
def valuesFor (key : HeaderName) : List (String × HeaderValue) → List HeaderValue
  | [] => []
  | p :: rest =>
    if HeaderName.ofString p.1 = key then p.2 :: valuesFor key rest
    else valuesFor key rest

/-- Appends further values onto an optional value list, creating the list
when values arrive for an absent key. -/
def optAppend (o : Option (List HeaderValue)) (l : List HeaderValue) :
    Option (List HeaderValue) :=
  match o with
  | some vs => some (vs ++ l)
  | none => if l = [] then none else some l

/-- Total number of (key, value) entries across the value lists of a
header map. -/
def totalValues (m : HeaderMap) : Nat :=
  (m.map (fun p => p.2.length)).sum

theorem lowerChar_idem (c : Char) : lowerChar (lowerChar c) = lowerChar c := by
  by_cases h : 65 ≤ c.toNat ∧ c.toNat ≤ 90
  · have h1 : lowerChar c = Char.ofNat (c.toNat + 32) := by
      unfold lowerChar; rw [if_pos h]
    rw [h1]
    obtain ⟨ha, hb⟩ := h
    interval_cases c.toNat <;> decide
  · have h1 : lowerChar c = c := by unfold lowerChar; rw [if_neg h]
    rw [h1, h1]

theorem lowerName_idem (s : String) : lowerName (lowerName s) = lowerName s := by
  show String.mk ((s.data.map lowerChar).map lowerChar)
    = String.mk (s.data.map lowerChar)
  rw [List.map_map]
  exact congrArg String.mk
    (List.map_congr_left (fun c _ => lowerChar_idem c))

theorem headerLookup_insertHeader (m : HeaderMap) (n key : HeaderName)
    (v : HeaderValue) :
    headerLookup (insertHeader m n v) key =
      if key = n then some ((headerLookup m n).getD [] ++ [v])
      else headerLookup m key := by
  induction m with
  | nil =>
    by_cases h : key = n
    · subst h; simp [insertHeader, headerLookup]
    · have h2 : ¬(n = key) := fun hh => h hh.symm
      simp [insertHeader, headerLookup, h, h2]
  | cons p rest ih =>
    obtain ⟨k, vs⟩ := p
    by_cases hk : k = n
    · subst hk
      by_cases hkey : key = k
      · subst hkey; simp [insertHeader, headerLookup]
      · have h2 : ¬(k = key) := fun hh => hkey hh.symm
        simp [insertHeader, headerLookup, hkey, h2]
    · by_cases hkey : k = key
      · subst hkey
        simp [insertHeader, headerLookup, hk]
      · simp [insertHeader, headerLookup, hk, hkey, ih]

theorem headerLookup_foldl (pairs : List (String × HeaderValue))
    (m : HeaderMap) (key : HeaderName) :
    headerLookup
        (pairs.foldl (fun m p => insertHeader m (HeaderName.ofString p.1) p.2) m)
        key
      = optAppend (headerLookup m key) (valuesFor key pairs) := by
  induction pairs generalizing m with
  | nil =>
    cases h : headerLookup m key <;> simp [valuesFor, optAppend, h]
  | cons p pairs ih =>
    simp only [List.foldl_cons]
    rw [ih, headerLookup_insertHeader]
    by_cases h : key = HeaderName.ofString p.1
    · have h' : HeaderName.ofString p.1 = key := h.symm
      rw [if_pos h]
      simp only [valuesFor, if_pos h']
      cases hm : headerLookup m key with
      | none => subst h; rw [hm]; simp [optAppend]
      | some vs => subst h; rw [hm]; simp [optAppend]
    · have h' : ¬(HeaderName.ofString p.1 = key) := fun hh => h hh.symm
      rw [if_neg h]
      simp only [valuesFor, if_neg h']

theorem mem_keys_insertHeader (m : HeaderMap) (n k : HeaderName)
    (v : HeaderValue) (h : k ∈ (insertHeader m n v).map Prod.fst) :
    k ∈ m.map Prod.fst ∨ k = n := by
  induction m with
  | nil =>
    simp [insertHeader] at h
    exact Or.inr h
  | cons p rest ih =>
    obtain ⟨k0, vs⟩ := p
    by_cases hk : k0 = n
    · subst hk
      have he : insertHeader ((k0, vs) :: rest) k0 v = (k0, vs ++ [v]) :: rest := by
        simp [insertHeader]
      rw [he] at h
      exact Or.inl h
    · have he : insertHeader ((k0, vs) :: rest) n v
          = (k0, vs) :: insertHeader rest n v := by
        simp [insertHeader, hk]
      rw [he, List.map_cons] at h
      rcases List.mem_cons.mp h with h | h
      · exact Or.inl (List.mem_cons.mpr (Or.inl h))
      · rcases ih h with h2 | h2
        · exact Or.inl (List.mem_cons.mpr (Or.inr h2))
        · exact Or.inr h2

theorem mem_keys_foldl (pairs : List (String × HeaderValue)) (m : HeaderMap)
    (k : HeaderName)
    (h : k ∈ ((pairs.foldl
        (fun m p => insertHeader m (HeaderName.ofString p.1) p.2) m).map
          Prod.fst)) :
    k ∈ m.map Prod.fst ∨ ∃ p ∈ pairs, k = HeaderName.ofString p.1 := by
  induction pairs generalizing m with
  | nil => exact Or.inl h
  | cons p pairs ih =>
    simp only [List.foldl_cons] at h
    rcases ih _ h with h2 | h2
    · rcases mem_keys_insertHeader _ _ _ _ h2 with h3 | h3
      · exact Or.inl h3
      · exact Or.inr ⟨p, by simp, h3⟩
    · obtain ⟨q, hq, hk⟩ := h2
      exact Or.inr ⟨q, by simp [hq], hk⟩

theorem keys_lower (pairs : List (String × HeaderValue)) (k : HeaderName)
    (h : k ∈ (aggregateHeaders pairs).map Prod.fst) :
    lowerName k.raw = k.raw := by
  rcases mem_keys_foldl pairs [] k h with h2 | h2
  · simp at h2
  · obtain ⟨p, _, hk⟩ := h2
    subst hk
    exact lowerName_idem p.1

theorem totalValues_insertHeader (m : HeaderMap) (n : HeaderName)
    (v : HeaderValue) :
    totalValues (insertHeader m n v) = totalValues m + 1 := by
  induction m with
  | nil => simp [insertHeader, totalValues]
  | cons p rest ih =>
    obtain ⟨k, vs⟩ := p
    by_cases hk : k = n
    · subst hk
      simp [insertHeader, totalValues]
      omega
    · simp [insertHeader, totalValues, hk] at ih ⊢
      omega

theorem totalValues_foldl (pairs : List (String × HeaderValue))
    (m : HeaderMap) :
    totalValues (pairs.foldl
        (fun m p => insertHeader m (HeaderName.ofString p.1) p.2) m)
      = totalValues m + pairs.length := by
  induction pairs generalizing m with
  | nil => simp
  | cons p pairs ih =>
    simp only [List.foldl_cons, List.length_cons]
    rw [ih, totalValues_insertHeader]
    omega

theorem nonempty_insertHeader (m : HeaderMap) (n : HeaderName)
    (v : HeaderValue) (h : ∀ p ∈ m, p.2 ≠ []) :
    ∀ p ∈ insertHeader m n v, p.2 ≠ [] := by
  induction m with
  | nil =>
    intro p hp
    simp [insertHeader] at hp
    subst hp; simp
  | cons q rest ih =>
    obtain ⟨k, vs⟩ := q
    intro p hp
    by_cases hk : k = n
    · subst hk
      simp [insertHeader] at hp
      rcases hp with hp | hp
      · subst hp; simp
      · exact h p (by simp [hp])
    · simp [insertHeader, hk] at hp
      rcases hp with hp | hp
      · subst hp
        exact h (k, vs) (by simp)
      · exact ih (fun q hq => h q (by simp [hq])) p hp

theorem nonempty_foldl (pairs : List (String × HeaderValue)) (m : HeaderMap)
    (h : ∀ p ∈ m, p.2 ≠ []) :
    ∀ p ∈ pairs.foldl
        (fun m p => insertHeader m (HeaderName.ofString p.1) p.2) m,
      p.2 ≠ [] := by
  induction pairs generalizing m with
  | nil => exact h
  | cons p pairs ih =>
    simp only [List.foldl_cons]
    exact ih _ (nonempty_insertHeader _ _ _ h)

theorem mapOption_eq_map (f : α → Option β) (d : β) (l : List α)
    (h : ∀ a ∈ l, (f a).isSome) :
    mapOption f l = some (l.map (fun a => (f a).getD d)) := by
  induction l with
  | nil => simp [mapOption]
  | cons a l ih =>
    have ha := h a (by simp)
    cases hf : f a with
    | none => rw [hf] at ha; simp at ha
    | some b =>
      have ih' := ih (fun x hx => h x (by simp [hx]))
      simp [mapOption, hf, ih']

theorem headerLinesStrict_eq (m : HeaderMap)
    (h : ∀ p ∈ m, ∀ v ∈ p.2, (utf8DecodeStr v).isSome) :
    headerLinesStrict m
      = some (concatStrings (m.map (fun p => headerLine p.1 p.2))) := by
  induction m with
  | nil => simp [headerLinesStrict, concatStrings]
  | cons p rest ih =>
    obtain ⟨n, vs⟩ := p
    rw [headerLinesStrict,
      mapOption_eq_map utf8DecodeStr "" vs (fun v hv => h (n, vs) (by simp) v hv),
      ih (fun q hq v hv => h q (by simp [hq]) v hv)]
    simp [concatStrings, headerLine]

theorem drain_ok_consumed (src : BodySource) (bs : List Nat)
    (h : (drain src).1 = Except.ok bs) :
    (drain src).2.state = BodyState.consumed := by
  obtain ⟨st, ct⟩ := src
  cases st with
  | consumed => simp [drain] at h
  | available =>
    cases ct with
    | ok bs' => simp [drain]
    | error e => simp [drain] at h

theorem drain_consumed_fails (src : BodySource)
    (h : src.state = BodyState.consumed) :
    drain src = (Except.error DrainError.alreadyConsumed, src) := by
  obtain ⟨st, ct⟩ := src
  simp at h
  subst h
  simp [drain]

theorem from_hyper_ok (r : RawRequest) (req : Request) (src : BodySource)
    (h : from_hyper r = (Outcome.ok req, src)) :
    parseUrl (resolveUrlString r.uri) = some req.url
    ∧ req.method = r.method
    ∧ req.headers = aggregateHeaders r.headerPairs
    ∧ (drain r.body).1 = Except.ok req.body
    ∧ src = (drain r.body).2 := by
  cases hp : parseUrl (resolveUrlString r.uri) with
  | none =>
    simp only [from_hyper, hp] at h
    exact absurd (congrArg Prod.fst h) (by simp)
  | some u =>
    simp only [from_hyper, hp] at h
    cases hd : (drain r.body).1 with
    | error e =>
      rw [hd] at h
      exact absurd (congrArg Prod.fst h) (by simp)
    | ok bs =>
      rw [hd] at h
      have h1 := congrArg Prod.fst h
      have h2 := congrArg Prod.snd h
      simp only at h1 h2
      have h3 := Outcome.ok.inj h1
      refine ⟨?_, ?_, ?_, ?_, h2.symm⟩ <;> rw [← h3]

/-- C1: the claim says a raw request whose resolved target string fails to
parse as a URL makes `Request::from_hyper` return
`CaptureError::Transport` instead of panicking. The code calls
`.parse().unwrap()`: on an authority-form target such as
`127.0.0.1:8080` (a CONNECT request), whose serialization is not a
parseable URL, the capture panics — no `CaptureError` type exists in the
code. This theorem evaluates the capture at that failing input and shows
the panic; the body source is left untouched (the panic precedes the
drain). -/
theorem c1_url_parse_failure_panics :
    from_hyper { method := "CONNECT",
                 uri := ⟨none, some "127.0.0.1:8080", ""⟩,
                 headerPairs := [], body := ⟨.available, .ok [104, 105]⟩ }
      = (Outcome.panicked urlPanicMsg, ⟨.available, .ok [104, 105]⟩) := rfl

/-- C2: the claim says a body-drain failure makes `Request::from_hyper`
return `CaptureError::BodyRead` carrying the cause. The code calls
`hyper::body::to_bytes(body).await.expect("Failed to read request
body.")`: a drain failure panics with that message instead of returning a
typed error. This theorem evaluates the capture on a raw request whose
body source fails with an I/O error and shows the panic. -/
theorem c2_body_read_failure_panics :
    from_hyper { method := "POST", uri := ⟨none, none, "/"⟩,
                 headerPairs := [],
                 body := ⟨.available, .error ⟨"connection reset by peer"⟩⟩ }
      = (Outcome.panicked bodyPanicMsg,
          ⟨.consumed, .error ⟨"connection reset by peer"⟩⟩) := rfl

/-- C3: the claim says the `Display` renderer totally succeeds, decoding
invalid UTF-8 in header values and body with a lossy strategy. The code
lossy-decodes only the body (`String::from_utf8_lossy`); header values go
through `String::from_utf8(..).unwrap()`, so a header value that is not
valid UTF-8 (byte `0xFF` here) panics the renderer. This theorem shows
the panic on such a header value, and that the same invalid byte in the
body alone is indeed absorbed lossily. -/
theorem c3_invalid_utf8_header_panics :
    render { url := ⟨"http", "localhost", "/", none⟩, method := "GET",
             headers := [(⟨"x-bad"⟩, [[255]])], body := [] }
      = Outcome.panicked hdrPanicMsg
    ∧ render { url := ⟨"http", "localhost", "/", none⟩, method := "GET",
               headers := [], body := [255] }
      = Outcome.ok "GET http://localhost/\n�\n" :=
  ⟨rfl, rfl⟩

/-- C4: the snapshot's `url` comes from reparsing the serialized target,
prefixed with `http://localhost` exactly when the target carries no
authority; in particular origin-form target `/a/b?x=1` yields
`http://localhost/a/b?x=1`. -/
theorem c4_url_resolution :
    (∀ (r : RawRequest) (req : Request) (src : BodySource),
        from_hyper r = (Outcome.ok req, src) →
          (∀ a, r.uri.authority = some a →
              parseUrl r.uri.toString = some req.url)
          ∧ (r.uri.authority = none →
              parseUrl ("http://localhost" ++ r.uri.toString) = some req.url))
    ∧ (from_hyper { method := "GET", uri := ⟨none, none, "/a/b?x=1"⟩,
                    headerPairs := [], body := ⟨.available, .ok []⟩ }).1
        = Outcome.ok { url := ⟨"http", "localhost", "/a/b", some "x=1"⟩,
                       method := "GET", headers := [], body := [] }
    ∧ Url.toString ⟨"http", "localhost", "/a/b", some "x=1"⟩
        = "http://localhost/a/b?x=1" := by
  refine ⟨?_, rfl, rfl⟩
  intro r req src h
  have hu := (from_hyper_ok r req src h).1
  constructor
  · intro a ha
    rw [resolveUrlString, ha] at hu
    exact hu
  · intro ha
    rw [resolveUrlString, ha] at hu
    exact hu

/-- C4 witness: the general part of `c4_url_resolution` applied to a
concrete absolute-form request and a concrete origin-form request. -/
theorem c4_url_resolution_witness :
    parseUrl (Uri.toString ⟨some "http", some "example.com:8080", "/x"⟩)
      = some ⟨"http", "example.com:8080", "/x", none⟩
    ∧ parseUrl ("http://localhost"
          ++ Uri.toString (⟨none, none, "/a/b?x=1"⟩ : Uri))
      = some ⟨"http", "localhost", "/a/b", some "x=1"⟩ :=
  ⟨(c4_url_resolution.1
      { method := "GET", uri := ⟨some "http", some "example.com:8080", "/x"⟩,
        headerPairs := [], body := ⟨.available, .ok []⟩ }
      { url := ⟨"http", "example.com:8080", "/x", none⟩, method := "GET",
        headers := [], body := [] }
      ⟨.consumed, .ok []⟩ rfl).1 "example.com:8080" rfl,
   (c4_url_resolution.1
      { method := "GET", uri := ⟨none, none, "/a/b?x=1"⟩,
        headerPairs := [], body := ⟨.available, .ok []⟩ }
      { url := ⟨"http", "localhost", "/a/b", some "x=1"⟩, method := "GET",
        headers := [], body := [] }
      ⟨.consumed, .ok []⟩ rfl).2 rfl⟩

/-- C5: header pairs aggregate in arrival order — the value list found
under a key is exactly the arrival-ordered list of the values of the
input pairs bearing that (normalized) name, bytes preserved; in
particular `("X-Foo","1")` then `("X-Foo","2")` yields `["1","2"]` under
either `"X-Foo"` or `"x-foo"` (byte `49` is `'1'`, byte `50` is `'2'`). -/
theorem c5_header_aggregation_order :
    (∀ (pairs : List (String × HeaderValue)) (s : String),
        lookupByName (aggregateHeaders pairs) s =
          if valuesFor (HeaderName.ofString s) pairs = [] then none
          else some (valuesFor (HeaderName.ofString s) pairs))
    ∧ lookupByName (aggregateHeaders [("X-Foo", [49]), ("X-Foo", [50])]) "X-Foo"
        = some [[49], [50]]
    ∧ lookupByName (aggregateHeaders [("X-Foo", [49]), ("X-Foo", [50])]) "x-foo"
        = some [[49], [50]] := by
  refine ⟨?_, rfl, rfl⟩
  intro pairs s
  rw [lookupByName, aggregateHeaders, headerLookup_foldl]
  rfl

/-- C6: lookup in the snapshot's header map is case-insensitive by name —
two name strings with the same ASCII lowercasing look up the same value
list, a header inserted as `Content-Type` is retrievable via
`content-type` — and the map's keys are unique under case-insensitive
equality: two keys with equal lowercasings are the same key. -/
theorem c6_case_insensitive_lookup :
    (∀ (pairs : List (String × HeaderValue)) (s t : String),
        lowerName s = lowerName t →
          lookupByName (aggregateHeaders pairs) s
            = lookupByName (aggregateHeaders pairs) t)
    ∧ lookupByName (aggregateHeaders [("Content-Type", [106])]) "content-type"
        = some [[106]]
    ∧ (∀ (pairs : List (String × HeaderValue)) (k1 k2 : HeaderName),
        k1 ∈ (aggregateHeaders pairs).map Prod.fst →
        k2 ∈ (aggregateHeaders pairs).map Prod.fst →
        lowerName k1.raw = lowerName k2.raw → k1 = k2) := by
  refine ⟨?_, rfl, ?_⟩
  · intro pairs s t h
    rw [lookupByName, lookupByName, HeaderName.ofString, HeaderName.ofString, h]
  · intro pairs k1 k2 h1 h2 h
    have e1 := keys_lower pairs k1 h1
    have e2 := keys_lower pairs k2 h2
    obtain ⟨r1⟩ := k1
    obtain ⟨r2⟩ := k2
    simp only at e1 e2 h ⊢
    rw [← e1, ← e2, h]

/-- C6 witness: the case-insensitive-lookup part of
`c6_case_insensitive_lookup` applied at concrete names differing in
case. -/
theorem c6_case_insensitive_lookup_witness :
    lookupByName (aggregateHeaders [("Content-Type", [106])]) "CONTENT-TYPE"
      = lookupByName (aggregateHeaders [("Content-Type", [106])]) "content-type" :=
  c6_case_insensitive_lookup.1 [("Content-Type", [106])]
    "CONTENT-TYPE" "content-type" rfl

/-- C7 counterexample: the claim about the rendered text is stated for
every snapshot, but a snapshot whose header value is the lone
continuation byte `0xC3` (not valid UTF-8) panics the renderer, so no
rendered text exists for it. -/
theorem c7_counterexample :
    render { url := ⟨"http", "localhost", "/", none⟩, method := "GET",
             headers := [(⟨"x-oops"⟩, [[195]])], body := [] }
      = Outcome.panicked hdrPanicMsg
    ∧ render { url := ⟨"http", "localhost", "/", none⟩, method := "GET",
               headers := [(⟨"x-oops"⟩, [[195]])], body := [] }
      ≠ Outcome.ok (renderedText
          { url := ⟨"http", "localhost", "/", none⟩, method := "GET",
            headers := [(⟨"x-oops"⟩, [[195]])], body := [] }) :=
  ⟨rfl, by decide⟩

/-- C7 (amended): for every snapshot whose header values are all valid
UTF-8, the rendered text is the `<METHOD> <URL>` line, then one line per
distinct header key with its values joined by `,`, then always a final
body line even when the body is empty; in particular a GET to
`http://localhost/` with no headers and empty body renders exactly as
`"GET http://localhost/\n\n"`. -/
theorem c7_render_format :
    (∀ req : Request,
        (∀ p ∈ req.headers, ∀ v ∈ p.2, (utf8DecodeStr v).isSome) →
          render req = Outcome.ok (renderedText req))
    ∧ render { url := ⟨"http", "localhost", "/", none⟩, method := "GET",
               headers := [], body := [] }
        = Outcome.ok "GET http://localhost/\n\n" := by
  refine ⟨?_, rfl⟩
  intro req h
  rw [render, headerLinesStrict_eq req.headers h]
  rfl

/-- C7 witness: the amended rendering theorem applied to the concrete GET
snapshot with one all-ASCII header. -/
theorem c7_render_format_witness :
    render { url := ⟨"http", "localhost", "/", none⟩, method := "GET",
             headers := [(⟨"x-a"⟩, [[49], [50]])], body := [] }
      = Outcome.ok (renderedText
          { url := ⟨"http", "localhost", "/", none⟩, method := "GET",
            headers := [(⟨"x-a"⟩, [[49], [50]])], body := [] }) :=
  c7_render_format.1
    { url := ⟨"http", "localhost", "/", none⟩, method := "GET",
      headers := [(⟨"x-a"⟩, [[49], [50]])], body := [] }
    (by decide)

/-- C8: a successful capture leaves the raw body source consumed, and a
second drain attempt on that source fails with the state error — it does
not return empty bytes as a valid read. -/
theorem c8_single_consumption :
    ∀ (r : RawRequest) (req : Request) (src : BodySource),
      from_hyper r = (Outcome.ok req, src) →
        src.state = BodyState.consumed
        ∧ (drain src).1 = Except.error DrainError.alreadyConsumed := by
  intro r req src h
  obtain ⟨-, -, -, hd, hsrc⟩ := from_hyper_ok r req src h
  have hstate : src.state = BodyState.consumed := by
    rw [hsrc]
    exact drain_ok_consumed r.body req.body hd
  refine ⟨hstate, ?_⟩
  rw [drain_consumed_fails src hstate]

/-- C8 witness: `c8_single_consumption` applied to a concrete successful
capture. -/
theorem c8_single_consumption_witness :
    (⟨BodyState.consumed, Except.ok [104, 105]⟩ : BodySource).state
        = BodyState.consumed
    ∧ (drain ⟨BodyState.consumed, Except.ok [104, 105]⟩).1
        = Except.error DrainError.alreadyConsumed :=
  c8_single_consumption
    { method := "GET", uri := ⟨none, none, "/"⟩, headerPairs := [],
      body := ⟨.available, .ok [104, 105]⟩ }
    { url := ⟨"http", "localhost", "/", none⟩, method := "GET",
      headers := [], body := [104, 105] }
    ⟨BodyState.consumed, Except.ok [104, 105]⟩ rfl

/-- C9: the structured body decoder — `Request::body_json` at the
representative shape of a mapping from strings to integers — decodes
body bytes `{"a":1}` to the mapping `[("a", 1)]`, returns the typed
`DecodeError` on non-JSON bytes (here the bytes of `"not json"`), and on
every snapshot either returns a decoded value or that typed error (it is
a pure function of the snapshot, which it cannot mutate). -/
theorem c9_body_json :
    body_json { url := ⟨"http", "localhost", "/", none⟩, method := "POST",
                headers := [], body := [123, 34, 97, 34, 58, 49, 125] }
      = Except.ok [("a", 1)]
    ∧ body_json { url := ⟨"http", "localhost", "/", none⟩, method := "POST",
                  headers := [],
                  body := [110, 111, 116, 32, 106, 115, 111, 110] }
      = Except.error DecodeError.invalid
    ∧ (∀ req : Request,
        (∃ m, body_json req = Except.ok m)
        ∨ body_json req = Except.error DecodeError.invalid) := by
  refine ⟨rfl, rfl, ?_⟩
  intro req
  cases hu : utf8Decode req.body with
  | none => exact Or.inr (by simp [body_json, hu])
  | some cs =>
    cases hp : parseIntMapChars cs with
    | none => exact Or.inr (by simp [body_json, hu, hp])
    | some m => exact Or.inl ⟨m, by simp [body_json, hu, hp]⟩

/-- C10: in every snapshot the capture builds, each key of the header map
carries a non-empty value list, and the total number of (key, value)
entries across all lists equals the number of raw header pairs. -/
theorem c10_headers_invariant :
    ∀ pairs : List (String × HeaderValue),
      (∀ p ∈ aggregateHeaders pairs, p.2 ≠ [])
      ∧ totalValues (aggregateHeaders pairs) = pairs.length := by
  intro pairs
  constructor
  · exact nonempty_foldl pairs [] (by simp)
  · rw [aggregateHeaders, totalValues_foldl]
    simp [totalValues]

/-- C10 witness: the invariant applied to a concrete one-pair input. -/
theorem c10_headers_invariant_witness :
    ((HeaderName.ofString "X-Foo", [[49]]) : HeaderName × List HeaderValue).2
      ≠ []
    ∧ totalValues (aggregateHeaders [("X-Foo", [49])]) = 1 :=
  ⟨(c10_headers_invariant [("X-Foo", [49])]).1
      (HeaderName.ofString "X-Foo", [[49]]) (by decide),
   (c10_headers_invariant [("X-Foo", [49])]).2⟩

end Wiremock
